import Mathlib

/-!
# go-mcproxy — verification of the core against its specification

A shallow embedding of the Minecraft reverse proxy's core: the VarInt
packet codec (`core/packet.go`), the connection registry and counters
(`core/common.go`), the status/ping handler (`core/ping.go`), the login
forward handler (`core/forward.go`), the listener admission checks and the
load balancer's proxy selection.  Pure data transformations are embedded
as Lean functions over `List Nat` byte strings; the stateful counters as
explicit state-passing over event traces.

The codec primitive types (`VarInt`, `Long` with their `ReadFrom` /
`WriteTo` / `Len` methods) are used by `core/packet.go` but their
implementation file is not among the sources; those definitions are
modelled from the spec (§4.1) and are marked as such.
-/

namespace MCProxy

/-! ## VarInt codec primitives (modelled from the spec) -/

/-- Fuel-indexed body of the VarInt byte-group encoder; the fuel only makes
the `u / 128` loop structurally recursive and is always sufficient at the
call site in `uvarEncode`. -/
def uvarEncodeAux (fuel : Nat) (u : Nat) : List Nat :=
  match fuel with
  | 0 => []
  | fuel + 1 => if u < 128 then [u] else (u % 128 + 128) :: uvarEncodeAux fuel (u / 128)

/-- Modelled from the spec: the unsigned core of `VarInt.WriteTo`, which is
missing from the sources.  Standard 7-bit continuation encoding: little-endian
groups of 7 bits, high bit of a byte set iff more bytes follow.  The encoder
operates on the `uint32` reinterpretation of the signed 32-bit value. -/
def uvarEncode (u : Nat) : List Nat := uvarEncodeAux (u + 1) u

theorem uvarEncodeAux_congr :
    ∀ fuel fuel' u : Nat, u < fuel → u < fuel' →
      uvarEncodeAux fuel u = uvarEncodeAux fuel' u := by
  intro fuel
  induction fuel with
  | zero => omega
  | succ f ih =>
    intro fuel' u hu hu'
    match fuel', hu' with
    | f' + 1, hu' =>
      simp only [uvarEncodeAux]
      by_cases h : u < 128
      · simp [h]
      · have hdiv : u / 128 < u := Nat.div_lt_self (by omega) (by omega)
        simp only [h, if_false]
        rw [ih f' (u / 128) (by omega) (by omega)]

/-- The recursive specification of `uvarEncode`, as the Go loop computes it. -/
theorem uvarEncode_eq (u : Nat) :
    uvarEncode u = if u < 128 then [u] else (u % 128 + 128) :: uvarEncode (u / 128) := by
  unfold uvarEncode
  by_cases h : u < 128
  · simp [uvarEncodeAux, h]
  · have hdiv : u / 128 < u := Nat.div_lt_self (by omega) (by omega)
    conv_lhs => rw [uvarEncodeAux]
    simp only [h, if_false]
    rw [uvarEncodeAux_congr u (u / 128 + 1) (u / 128) (by omega) (by omega)]

/-- Modelled from the spec: the decoder loop of `VarInt.ReadFrom`, which is
missing from the sources.  Each byte contributes its low 7 bits at the current
bit position; a continuation whose next position would reach 32 bits is an
error ("VarInt too big", enforcing the up-to-5-bytes limit); returns the
accumulated value, the number of bytes consumed and the remaining input. -/
def uvarDecode (pos : Nat) (l : List Nat) : Except String (Nat × Nat × List Nat) :=
  match l with
  | [] => .error "read varint: unexpected end of input"
  | b :: rest =>
    if b < 128 then .ok (b * 2 ^ pos, 1, rest)
    else if 32 ≤ pos + 7 then .error "read varint: varint too big"
    else
      match uvarDecode (pos + 7) rest with
      | .ok (v, n, rest') => .ok ((b - 128) * 2 ^ pos + v, n + 1, rest')
      | .error e => .error e

/-- Two's-complement reinterpretation of an accumulated 32-bit value as a
signed integer (the `int32` the Go `VarInt` type wraps). -/
def toInt32 (u : Nat) : Int :=
  if u % 2 ^ 32 < 2 ^ 31 then ((u % 2 ^ 32 : Nat) : Int)
  else ((u % 2 ^ 32 : Nat) : Int) - 2 ^ 32

/-- Modelled from the spec: `VarInt.WriteTo` (missing from the sources) —
serialize a signed 32-bit value, two's complement, 7-bit continuation groups. -/
def varIntWrite (v : Int) : List Nat := uvarEncode ((v % 2 ^ 32).toNat)

/-- Modelled from the spec: `VarInt.Len` (missing from the sources) — the
number of bytes the encoding of the value occupies. -/
def varIntLen (v : Int) : Nat := (varIntWrite v).length

/-- Modelled from the spec: `VarInt.ReadFrom` (missing from the sources) —
decode one VarInt from the input, returning the signed 32-bit value, the
byte count consumed and the rest of the input. -/
def varIntRead (l : List Nat) : Except String (Int × Nat × List Nat) :=
  match uvarDecode 0 l with
  | .ok (u, n, rest) => .ok (toInt32 u, n, rest)
  | .error e => .error e

/-! ## Packet framing (`core/packet.go`) -/

/-- `Packet` from `core/packet.go`: a decoded frame, packet id plus payload. -/
structure Packet where
  ID : Int
  Payload : List Nat
deriving DecidableEq

/-- `maxPacketLength` from `core/packet.go`. -/
def maxPacketLength : Int := 4096

/-- `ReadPacket` from `core/packet.go`: read the length VarInt, then the id
VarInt (recording how many bytes it used), reject a negative id, reject a
length outside `[0, 4096]`, reject a payload length (`length - id bytes`)
below zero, then read exactly that many payload bytes, failing on a short
read.  The model consumes from a byte list and returns the unread rest. -/
def ReadPacket (input : List Nat) : Except String (Packet × List Nat) :=
  match varIntRead input with
  | .error e => .error e
  | .ok (pktLength, _, r1) =>
    match varIntRead r1 with
    | .error e => .error e
    | .ok (pktID, n, r2) =>
      if pktID < 0 then .error "read packet: negateive packet id"
      else if pktLength < 0 ∨ maxPacketLength < pktLength then
        .error "read packet: invalid packet length"
      else
        if pktLength - (n : Int) < 0 then .error "read packet: invalid payload length"
        else if r2.length < (pktLength - (n : Int)).toNat then
          .error "read packet: short payload read"
        else .ok (⟨pktID, r2.take (pktLength - (n : Int)).toNat⟩,
                  r2.drop (pktLength - (n : Int)).toNat)

/-- `WritePacket` from `core/packet.go`: length = id encoding length plus
payload length; serialize length, id, payload in order. -/
def WritePacket (pktID : Int) (pkt : List Nat) : List Nat :=
  varIntWrite ((varIntLen pktID : Int) + (pkt.length : Int)) ++ varIntWrite pktID ++ pkt

/-! ### Codec round-trip lemmas -/

theorem uvarEncode_length_pos (u : Nat) : 1 ≤ (uvarEncode u).length := by
  rw [uvarEncode_eq]
  split <;> simp

theorem uvarEncode_length_le (k : Nat) :
    ∀ u : Nat, u < 128 ^ (k + 1) → (uvarEncode u).length ≤ k + 1 := by
  induction k with
  | zero =>
    intro u hu
    rw [uvarEncode_eq]
    split
    · simp
    · omega
  | succ k ih =>
    intro u hu
    rw [uvarEncode_eq]
    split
    · simp
    · have hdiv : u / 128 < 128 ^ (k + 1) := by
        apply Nat.div_lt_of_lt_mul
        calc u < 128 ^ (k + 2) := hu
        _ = 128 * 128 ^ (k + 1) := by ring
      have := ih (u / 128) hdiv
      simpa using this

theorem uvarDecode_uvarEncode (u : Nat) :
    ∀ (pos : Nat) (rest : List Nat), pos + 7 * (uvarEncode u).length ≤ 38 →
      uvarDecode pos (uvarEncode u ++ rest) =
        .ok (u * 2 ^ pos, (uvarEncode u).length, rest) := by
  induction u using Nat.strong_induction_on with
  | _ u ih =>
    intro pos rest hguard
    rw [uvarEncode_eq] at hguard ⊢
    by_cases hu : u < 128
    · simp only [hu, if_true] at hguard ⊢
      simp [uvarDecode, hu]
    · simp only [hu, if_false, List.length_cons] at hguard ⊢
      have hlen1 : 1 ≤ (uvarEncode (u / 128)).length := uvarEncode_length_pos _
      have hrec := ih (u / 128) (Nat.div_lt_self (by omega) (by omega)) (pos + 7)
        rest (by omega)
      have hb : ¬ (u % 128 + 128 < 128) := by omega
      have hpos7 : ¬ 32 ≤ pos + 7 := by omega
      rw [List.cons_append]
      simp only [uvarDecode, hb, if_false, hpos7, hrec]
      have harith : (u % 128 + 128 - 128) * 2 ^ pos + u / 128 * 2 ^ (pos + 7)
          = u * 2 ^ pos := by
        have h1 : u % 128 + 128 - 128 = u % 128 := by omega
        rw [h1, pow_add]
        have h2 : u % 128 * 2 ^ pos + u / 128 * (2 ^ pos * 2 ^ 7)
            = (u % 128 + u / 128 * 128) * 2 ^ pos := by ring
        rw [h2, Nat.mod_add_div' u 128]
      rw [harith]

theorem uvarEncode_length_le_five (u : Nat) (h : u < 2 ^ 32) :
    (uvarEncode u).length ≤ 5 := by
  have : u < 128 ^ 5 := by
    calc u < 2 ^ 32 := h
    _ ≤ 128 ^ 5 := by norm_num
  exact uvarEncode_length_le 4 u this

theorem varIntRead_varIntWrite (v : Int) (h0 : 0 ≤ v) (h1 : v < 2 ^ 31)
    (rest : List Nat) :
    varIntRead (varIntWrite v ++ rest) = .ok (v, varIntLen v, rest) := by
  have hmod : v % 2 ^ 32 = v := Int.emod_eq_of_lt h0 (by omega)
  have hu32 : (v % 2 ^ 32).toNat < 2 ^ 32 := by rw [hmod]; omega
  have hlen5 : (uvarEncode ((v % 2 ^ 32).toNat)).length ≤ 5 :=
    uvarEncode_length_le_five _ hu32
  have hdec : uvarDecode 0 (uvarEncode ((v % 2 ^ 32).toNat) ++ rest)
      = .ok ((v % 2 ^ 32).toNat * 2 ^ 0, (uvarEncode ((v % 2 ^ 32).toNat)).length, rest) :=
    uvarDecode_uvarEncode _ 0 rest (by omega)
  unfold varIntRead varIntWrite varIntLen
  rw [hdec]
  dsimp only
  have hsmall : (v % 2 ^ 32).toNat < 2 ^ 31 := by rw [hmod]; omega
  have hmod2 : (v % 2 ^ 32).toNat % 2 ^ 32 = (v % 2 ^ 32).toNat :=
    Nat.mod_eq_of_lt (by omega)
  unfold toInt32
  simp only [pow_zero, mul_one, hmod2]
  rw [if_pos hsmall]
  have hback : (((v % 2 ^ 32).toNat : Nat) : Int) = v := by omega
  rw [hback]
  rfl

/-- C2: writing a frame with `WritePacket(id, payload)` and reading it back
with `ReadPacket` returns exactly `(id, payload)` (consuming the entire
encoding), for every id representable as a non-negative VarInt (a signed
32-bit value, hence `0 ≤ id < 2^31`) whose encoded length plus payload
length fits within the 4096-byte frame limit. -/
theorem writePacket_readPacket_roundtrip (id : Int) (payload : List Nat)
    (h0 : 0 ≤ id) (h1 : id < 2 ^ 31)
    (h2 : (varIntLen id : Int) + payload.length ≤ 4096) :
    ReadPacket (WritePacket id payload) = .ok (⟨id, payload⟩, []) := by
  have hlenpos : 1 ≤ varIntLen id := uvarEncode_length_pos _
  have hL0 : (0 : Int) ≤ (varIntLen id : Int) + (payload.length : Int) := by positivity
  have hL31 : (varIntLen id : Int) + (payload.length : Int) < 2 ^ 31 := by omega
  unfold WritePacket ReadPacket
  rw [List.append_assoc,
    varIntRead_varIntWrite ((varIntLen id : Int) + (payload.length : Int)) hL0 hL31]
  dsimp only
  rw [varIntRead_varIntWrite id h0 h1]
  dsimp only
  have hnotneg : ¬ id < 0 := by omega
  have hrange : ¬ ((varIntLen id : Int) + (payload.length : Int) < 0 ∨
      maxPacketLength < (varIntLen id : Int) + (payload.length : Int)) := by
    unfold maxPacketLength; omega
  rw [if_neg hnotneg, if_neg hrange]
  have hpl : (varIntLen id : Int) + (payload.length : Int) - (varIntLen id : Int)
      = (payload.length : Int) := by omega
  rw [hpl]
  have hplnn : ¬ ((payload.length : Int) < 0) := by omega
  rw [if_neg hplnn]
  have htn : ((payload.length : Int)).toNat = payload.length := by omega
  rw [htn]
  simp

/-- Witness for C2 at `id = 1`, `payload = [65]`. -/
theorem writePacket_readPacket_roundtrip_witness :
    ReadPacket (WritePacket 1 [65]) = .ok (⟨1, [65]⟩, []) :=
  writePacket_readPacket_roundtrip 1 [65] (by decide) (by decide) (by decide)

/-! ### `ReadPacket` failure characterization and safety -/

/-- `Except.error`-ness, as a Boolean observation. -/
def isErr {ε α : Type} : Except ε α → Bool
  | .error _ => true
  | .ok _ => false

theorem uvarDecode_one_le (pos : Nat) (l : List Nat) (v n : Nat) (rest : List Nat)
    (h : uvarDecode pos l = .ok (v, n, rest)) : 1 ≤ n := by
  induction l generalizing pos v n rest with
  | nil => simp [uvarDecode] at h
  | cons b tl ih =>
    unfold uvarDecode at h
    split at h
    · simp only [Except.ok.injEq, Prod.mk.injEq] at h
      omega
    · split at h
      · simp at h
      · split at h
        next v' n' rest' heq =>
          simp only [Except.ok.injEq, Prod.mk.injEq] at h
          omega
        next => simp at h

theorem uvarDecode_suffix (pos : Nat) (l : List Nat) (v n : Nat) (rest : List Nat)
    (h : uvarDecode pos l = .ok (v, n, rest)) : rest.IsSuffix l := by
  induction l generalizing pos v n rest with
  | nil => simp [uvarDecode] at h
  | cons b tl ih =>
    unfold uvarDecode at h
    split at h
    · simp only [Except.ok.injEq, Prod.mk.injEq] at h
      obtain ⟨-, -, hr⟩ := h
      subst hr
      exact (List.suffix_cons b tl)
    · split at h
      · simp at h
      · split at h
        next v' n' rest' heq =>
          simp only [Except.ok.injEq, Prod.mk.injEq] at h
          obtain ⟨-, -, hr⟩ := h
          subst hr
          exact (ih _ _ _ _ heq).trans (List.suffix_cons b tl)
        next => simp at h

theorem varIntRead_one_le (l : List Nat) (v : Int) (n : Nat) (rest : List Nat)
    (h : varIntRead l = .ok (v, n, rest)) : 1 ≤ n := by
  unfold varIntRead at h
  split at h
  next u n' rest' heq =>
    simp only [Except.ok.injEq, Prod.mk.injEq] at h
    obtain ⟨-, hn, -⟩ := h
    subst hn
    exact uvarDecode_one_le 0 l u n' rest' heq
  next => simp at h

theorem varIntRead_suffix (l : List Nat) (v : Int) (n : Nat) (rest : List Nat)
    (h : varIntRead l = .ok (v, n, rest)) : rest.IsSuffix l := by
  unfold varIntRead at h
  split at h
  next u n' rest' heq =>
    simp only [Except.ok.injEq, Prod.mk.injEq] at h
    obtain ⟨-, -, hr⟩ := h
    subst hr
    exact uvarDecode_suffix 0 l u n' rest' heq
  next => simp at h

/-- C3: given that the leading length VarInt and id VarInt of a frame decode
(`len` the declared length, `id` the packet id, `n2` the bytes the id used,
`r2` the input after the id), `ReadPacket` fails exactly when `id < 0`,
`len < 0`, `len > 4096`, `len < n2`, or fewer than `len - n2` payload bytes
remain (the short read); otherwise it consumes exactly `len - n2` payload
bytes and returns them with the id. -/
theorem readPacket_error_characterization (input : List Nat)
    (len : Int) (n1 : Nat) (r1 : List Nat) (id : Int) (n2 : Nat) (r2 : List Nat)
    (h1 : varIntRead input = .ok (len, n1, r1))
    (h2 : varIntRead r1 = .ok (id, n2, r2)) :
    (isErr (ReadPacket input) = true ↔
      (id < 0 ∨ len < 0 ∨ 4096 < len ∨ len < (n2 : Int) ∨
        (r2.length : Int) < len - n2)) ∧
    (¬ (id < 0 ∨ len < 0 ∨ 4096 < len ∨ len < (n2 : Int)) →
      (len - n2 : Int) ≤ (r2.length : Int) →
      ReadPacket input = .ok (⟨id, r2.take (len - (n2 : Int)).toNat⟩,
        r2.drop (len - (n2 : Int)).toNat)) := by
  unfold ReadPacket
  rw [h1]
  dsimp only
  rw [h2]
  dsimp only
  unfold maxPacketLength
  by_cases hid : id < 0
  · rw [if_pos hid]
    exact ⟨iff_of_true rfl (Or.inl hid), fun hno _ => absurd (Or.inl hid) hno⟩
  · rw [if_neg hid]
    by_cases hlen : len < 0 ∨ (4096 : Int) < len
    · rw [if_pos hlen]
      refine ⟨iff_of_true rfl ?_, fun hno _ => ?_⟩
      · rcases hlen with h | h
        · exact Or.inr (Or.inl h)
        · exact Or.inr (Or.inr (Or.inl h))
      · rcases hlen with h | h
        · exact absurd (Or.inr (Or.inl h)) hno
        · exact absurd (Or.inr (Or.inr (Or.inl h))) hno
    · rw [if_neg hlen]
      by_cases hpl : len - (n2 : Int) < 0
      · rw [if_pos hpl]
        refine ⟨iff_of_true rfl (Or.inr (Or.inr (Or.inr (Or.inl (by omega))))), ?_⟩
        intro hno _
        exact absurd (Or.inr (Or.inr (Or.inr (by omega : len < (n2 : Int)))) :
          id < 0 ∨ len < 0 ∨ 4096 < len ∨ len < (n2 : Int)) hno
      · rw [if_neg hpl]
        by_cases hshort : r2.length < (len - (n2 : Int)).toNat
        · rw [if_pos hshort]
          refine ⟨iff_of_true rfl (Or.inr (Or.inr (Or.inr (Or.inr (by omega))))), ?_⟩
          intro hno hen
          exact absurd hen (by omega)
        · rw [if_neg hshort]
          refine ⟨iff_of_false (by simp [isErr]) (by omega), ?_⟩
          intro hno hen
          rfl

/-- Witness for C3 on the concrete frame `[2, 1, 65]`
(length 2, id 1, one payload byte). -/
theorem readPacket_error_characterization_witness :
    (isErr (ReadPacket [2, 1, 65]) = true ↔
      ((1 : Int) < 0 ∨ (2 : Int) < 0 ∨ (4096 : Int) < 2 ∨ (2 : Int) < (1 : Nat) ∨
        (([65] : List Nat).length : Int) < 2 - (1 : Nat))) ∧
    (¬ ((1 : Int) < 0 ∨ (2 : Int) < 0 ∨ (4096 : Int) < 2 ∨ (2 : Int) < (1 : Nat)) →
      ((2 : Int) - (1 : Nat) : Int) ≤ (([65] : List Nat).length : Int) →
      ReadPacket [2, 1, 65] = .ok (⟨1, ([65] : List Nat).take ((2 : Int) - ((1 : Nat) : Int)).toNat⟩,
        ([65] : List Nat).drop ((2 : Int) - ((1 : Nat) : Int)).toNat)) :=
  readPacket_error_characterization [2, 1, 65] 2 1 [1, 65] 1 1 [65] rfl rfl

/-- C9 (implicit): every packet `ReadPacket` returns satisfies `ID ≥ 0` and
`len(Payload) ≤ 4095` (the declared length is at most 4096 and the id uses at
least one byte of it), and the payload together with the unread rest is a
contiguous tail of the input — the payload is filled entirely from the
input. -/
theorem readPacket_ok_safety (input : List Nat) (pkt : Packet) (rest : List Nat)
    (h : ReadPacket input = .ok (pkt, rest)) :
    0 ≤ pkt.ID ∧ pkt.Payload.length ≤ 4095 ∧ (pkt.Payload ++ rest).IsSuffix input := by
  unfold ReadPacket at h
  split at h
  next => simp at h
  next len n1 r1 heq1 =>
  split at h
  next => simp at h
  next id n2 r2 heq2 =>
  split at h
  next => simp at h
  next hid =>
  split at h
  next => simp at h
  next hlen =>
  split at h
  next => simp at h
  next hpl =>
  split at h
  next => simp at h
  next hshort =>
  simp only [Except.ok.injEq, Prod.mk.injEq] at h
  obtain ⟨hpkt, hrest⟩ := h
  subst hpkt
  subst hrest
  dsimp only
  unfold maxPacketLength at hlen
  have hn2 : 1 ≤ n2 := varIntRead_one_le r1 id n2 r2 heq2
  have hsfx : r2.IsSuffix input :=
    (varIntRead_suffix r1 id n2 r2 heq2).trans (varIntRead_suffix input len n1 r1 heq1)
  refine ⟨by omega, ?_, ?_⟩
  · have : (len - (n2 : Int)).toNat ≤ 4095 := by omega
    simp only [List.length_take]
    omega
  · rw [List.take_append_drop]
    exact hsfx

/-- Witness for C9 on the concrete frame `[2, 1, 65]`. -/
theorem readPacket_ok_safety_witness :
    0 ≤ (Packet.mk 1 [65]).ID ∧ (Packet.mk 1 [65]).Payload.length ≤ 4095 ∧
      ((Packet.mk 1 [65]).Payload ++ ([] : List Nat)).IsSuffix [2, 1, 65] :=
  readPacket_ok_safety [2, 1, 65] ⟨1, [65]⟩ [] rfl

/-! ## The global online counter (`core/common.go`, `core/forward.go`,
balancer `handleConnection`) -/

/-- `decrementOnlineCount` from `core/common.go`: the CAS-loop decrement that
returns without change when the counter is already `≤ 0` (sequentialized as a
pure state update). -/
def decrementOnlineCount (c : Int) : Int := if c ≤ 0 then c else c - 1

/-- The operations the sources perform on the global `onlineCount`:
`forwardEnter`/`forwardExit` are `handleForward`'s `onlineCount.Add(1)` and
deferred `onlineCount.Add(-1)` (`core/forward.go` lines 15-16, the exit is an
unclamped atomic add); `balancerAdmit`/`balancerExit` are the balancer login
branch's `onlineCount.Add(1)` and deferred `decrementOnlineCount()`;
`adminDisconnect` is `DisconnectClient`'s `decrementOnlineCount()`
(`core/common.go` line 245). -/
inductive CountEvent where
  | forwardEnter
  | forwardExit
  | balancerAdmit
  | balancerExit
  | adminDisconnect
deriving DecidableEq

/-- One `onlineCount` update, as the cited source lines perform it. -/
def stepOnlineCount (c : Int) : CountEvent → Int
  | .forwardEnter => c + 1
  | .forwardExit => c - 1
  | .balancerAdmit => c + 1
  | .balancerExit => decrementOnlineCount c
  | .adminDisconnect => decrementOnlineCount c

/-- `onlineCount` after a trace of events, starting from 0. -/
def runOnlineCount (evs : List CountEvent) : Int := evs.foldl stepOnlineCount 0

/-- C1 (code bug): the claimed invariant fails on the code.  A
listener-admitted session that is forwarding (`forwardEnter`, count 1), then
admin-disconnected (`adminDisconnect` clamps the count to 0), and whose
forward handler then returns (`forwardExit`, the *unclamped* `Add(-1)` of
`core/forward.go` line 16) leaves `online_count = -1`: the decrement on this
completion path wraps below zero instead of clamping.  Moreover a
balancer-admitted login increments twice — once in the balancer's login
branch and once on entering `handleForward` — so one forwarding session
makes `online_count = 2`, not the number of forwarding sessions. -/
theorem onlineCount_invariant_violations :
    runOnlineCount [.forwardEnter, .adminDisconnect, .forwardExit] = -1 ∧
    runOnlineCount [.balancerAdmit, .forwardEnter] = 2 := by
  constructor <;> rfl

/-! ## The connection registry (`core/common.go`) -/

/-- The reserved public-IP sentinels that are never counted
(`core/common.go` lines 75 and 99). -/
def reservedIP (ip : String) : Bool :=
  ip == "" || ip == "N/A" || ip == "Error" || ip == "Unknown"

/-- The fields of a registry `Connection` that the registry bookkeeping
reads: its id and its `PublicIP`. -/
structure RConn where
  id : String
  publicIP : String
deriving DecidableEq

/-- The registry state: `activeConnections.connections` (a map keyed by id,
embedded as an association list) and `connectionsPerIP.counts`. -/
structure Registry where
  connections : List (String × RConn)
  counts : List (String × Nat)
deriving DecidableEq

/-- The guarded per-IP decrement of `UnregisterConnection`
(`core/common.go` lines 100-105): decrement only an existing positive
counter for this IP. -/
def decIPCount (counts : List (String × Nat)) (ip : String) : List (String × Nat) :=
  counts.map (fun p => if p.1 == ip && decide (0 < p.2) then (p.1, p.2 - 1) else p)

/-- `UnregisterConnection` from `core/common.go`: fetch the connection,
delete its key from the map, and — only when a connection was present and its
`PublicIP` is not a reserved sentinel — decrement that IP's counter. -/
def UnregisterConnection (r : Registry) (id : String) : Registry :=
  let conn := (r.connections.find? (fun p => p.1 == id)).map Prod.snd
  let remaining := r.connections.filter (fun p => !(p.1 == id))
  match conn with
  | none => { r with connections := remaining }
  | some c =>
    if reservedIP c.publicIP then { r with connections := remaining }
    else { connections := remaining, counts := decIPCount r.counts c.publicIP }

/-- C10 (implicit): `UnregisterConnection` on an id that is not registered
returns without error and changes nothing: the registry map and every per-IP
counter are left exactly as they were.  In particular the handler's deferred
unregister, running after an admin disconnect already unregistered the same
session, cannot decrement any per-IP counter a second time. -/
theorem unregister_missing_id_noop (r : Registry) (id : String)
    (h : r.connections.find? (fun p => p.1 == id) = none) :
    UnregisterConnection r id = r := by
  unfold UnregisterConnection
  rw [h]
  dsimp only [Option.map_none']
  have hfilter : r.connections.filter (fun p => !(p.1 == id)) = r.connections := by
    apply List.filter_eq_self.mpr
    intro p hp
    have := List.find?_eq_none.mp h p hp
    simpa using this
  rw [hfilter]

/-- Witness for C10: removing an unknown id `"b"` from a one-entry registry
changes nothing. -/
theorem unregister_missing_id_noop_witness :
    UnregisterConnection ⟨[("a", ⟨"a", "1.2.3.4"⟩)], [("1.2.3.4", 1)]⟩ "b"
      = ⟨[("a", ⟨"a", "1.2.3.4"⟩)], [("1.2.3.4", 1)]⟩ :=
  unregister_missing_id_noop ⟨[("a", ⟨"a", "1.2.3.4"⟩)], [("1.2.3.4", 1)]⟩ "b" rfl

/-! ## Listener login admission (`handler`, login branch) -/

/-- `VERSION_1_8_9` from `core/common.go`. -/
def VERSION_1_8_9 : Int := 47

/-- `MaxConnectionsPerIP` from `core/common.go`. -/
def MaxConnectionsPerIP : Nat := 4

/-- The outcome of the listener's login branch: an admission disconnect with
its reason, or registration followed by the forward handler. -/
inductive LoginOutcome where
  | disconnect (reason : String)
  | registerAndForward
deriving DecidableEq

/-- The `next_state == 2` branch of `handler` (the proxy listener accept
path): protocol-version check, then global capacity against
`onlineCount`, then the per-IP cap on `GetConnectionCountForIP`, and only
then registration and `handleForward`.  `protocol`, `onlineCount`,
`maxPlayer` and `ipCount` stand for the values the checks read. -/
def handlerLogin (protocol onlineCount maxPlayer : Int) (ipCount : Nat) : LoginOutcome :=
  if protocol < VERSION_1_8_9 then .disconnect "unsupported client version"
  else if onlineCount ≥ maxPlayer then .disconnect "The server is full"
  else if ipCount ≥ MaxConnectionsPerIP then .disconnect "Connection limit reached for your IP"
  else .registerAndForward

/-- C6: the listener's login admission performs the three checks in order
with exactly these reasons: the version disconnect happens iff
`protocol < 47`; the capacity disconnect iff the version passed and
`online_count ≥ max_players`; the per-IP disconnect iff both prior checks
passed and the IP already has `≥ 4` connections; and the session is
registered and forwarded iff all three checks pass. -/
theorem handler_admission_checks (p oc mp : Int) (ip : Nat) :
    (handlerLogin p oc mp ip = .disconnect "unsupported client version" ↔ p < 47) ∧
    (handlerLogin p oc mp ip = .disconnect "The server is full" ↔ 47 ≤ p ∧ mp ≤ oc) ∧
    (handlerLogin p oc mp ip = .disconnect "Connection limit reached for your IP" ↔
      47 ≤ p ∧ oc < mp ∧ 4 ≤ ip) ∧
    (handlerLogin p oc mp ip = .registerAndForward ↔ 47 ≤ p ∧ oc < mp ∧ ip < 4) := by
  unfold handlerLogin VERSION_1_8_9 MaxConnectionsPerIP
  split_ifs with h1 h2 h3 <;>
    refine ⟨?_, ?_, ?_, ?_⟩ <;> simp_all

/-! ## BungeeCord server-switch detection (`core/forward.go`) -/

/-- The registry fields the switch detection reads: a session's
`ClientAddr` and `Username`. -/
structure SessionRecord where
  clientAddr : String
  username : String
deriving DecidableEq

/-- The server-switch detection of `handleForward` (`core/forward.go`
lines 34-48 and 72-79): scan the registered sessions for the first one with
this `client_addr`; flag a switch if its username is non-empty (before the
login-start is even read), or — after scanning the new username — if its
stored username equals the new one. -/
def detectBungeeSwitch (conns : List SessionRecord) (clientAddr newUsername : String) : Bool :=
  match conns.find? (fun c => c.clientAddr == clientAddr) with
  | none => false
  | some c => (c.username != "") || (c.username == newUsername)

/-- The claim's detection predicate, following the spec's words: a prior
session with the same `client_addr` already has a non-empty username that
is equal to the newly scanned username. -/
def claimedBungeeSwitch (conns : List SessionRecord) (clientAddr newUsername : String) : Bool :=
  conns.any (fun c => c.clientAddr == clientAddr && c.username != "" && c.username == newUsername)

/-- C5 counterexample: a prior session at the same address whose username
`"alice"` differs from the newly scanned `"bob"` — the code flags a
server-switch (and therefore skips the upstream handshake and login-start),
while the claimed condition does not hold. -/
theorem bungee_switch_counterexample :
    detectBungeeSwitch [⟨"10.0.0.1:5000", "alice"⟩] "10.0.0.1:5000" "bob" = true ∧
    claimedBungeeSwitch [⟨"10.0.0.1:5000", "alice"⟩] "10.0.0.1:5000" "bob" = false := by
  exact ⟨rfl, rfl⟩

/-- C5 (amended): the forward handler flags a BungeeCord server-switch (and
so skips the upstream handshake and login-start frames) iff the first
registered session found with the same `client_addr` has a non-empty
username *or* its username equals the newly scanned one (which covers the
empty-equals-empty case); equality with the new username is not required
when the stored username is non-empty. -/
theorem bungee_switch_characterization (conns : List SessionRecord) (addr u : String) :
    detectBungeeSwitch conns addr u = true ↔
      ∃ c, conns.find? (fun c => c.clientAddr == addr) = some c ∧
        (c.username ≠ "" ∨ c.username = u) := by
  unfold detectBungeeSwitch
  rcases hfind : conns.find? (fun c => c.clientAddr == addr) with _ | c
  · simp [hfind]
  · simp [hfind, ne_eq]

/-! ## Fake-ping status description (`core/ping.go`, `core/common.go`) -/

/-- The port-stripping of `GetPublicIP` (`core/common.go` lines 307-310):
keep everything before the last `':'`, or the whole string when there is no
`':'`. -/
def stripPort (s : String) : String :=
  let r := s.data.reverse
  if ':' ∈ r then String.mk (((r.dropWhile (fun ch => ch != ':')).drop 1).reverse) else s

/-- `GetPublicIP` from `core/common.go`.  The `curl` call to ipinfo.io
through the bound interface is the spec's abstract public-IP oracle,
passed as a parameter: `none` models a command failure, `some out` the
command output.  An empty local address short-circuits to `"N/A"`; a failed
command yields `"Error"`; an output that trims to empty yields
`"Unknown"`. -/
def GetPublicIP (oracle : String → Option String) (localAddr : String) : String :=
  if localAddr == "" then "N/A"
  else
    match oracle (stripPort localAddr) with
    | none => "Error"
    | some out =>
      let ip := out.trim
      if ip == "" then "Unknown" else ip

/-- The fake-ping description computation of `handlePing` (`core/ping.go`
lines 22-26): the connection-source suffix is appended whenever
`GetPublicIP` returns a non-empty string. -/
def fakePingDescription (oracle : String → Option String) (description localAddr : String) :
    String :=
  let publicIP := GetPublicIP oracle localAddr
  if publicIP != "" then description ++ " (從: " ++ publicIP ++ " 連線)" else description

/-- `GetPublicIP` never returns the empty string: every branch yields a
sentinel or a non-empty trimmed address. -/
theorem getPublicIP_ne_empty (oracle : String → Option String) (localAddr : String) :
    GetPublicIP oracle localAddr ≠ "" := by
  unfold GetPublicIP
  split
  · decide
  · rcases oracle (stripPort localAddr) with _ | out
    · decide
    · dsimp only
      split
      · decide
      next hip => simpa using hip

/-- C4 counterexample: with no local bind address and `description = "hi"`,
the fake-ping status description is not `"hi"` — the oracle short-circuit
value `"N/A"` is non-empty, so the connection-source suffix is appended. -/
theorem fake_ping_description_counterexample :
    fakePingDescription (fun _ => none) "hi" "" = "hi (從: N/A 連線)" ∧
    fakePingDescription (fun _ => none) "hi" "" ≠ "hi" := by
  exact ⟨rfl, by decide⟩

/-- C4 (amended): the suffix check only tests non-emptiness, and
`GetPublicIP` never returns an empty string (with an empty `local_addr` it
returns the sentinel `"N/A"`), so fake-ping mode always appends the
connection-source suffix; with `local_addr` empty and `description = "hi"`
the client sees `"hi (從: N/A 連線)"`. -/
theorem fake_ping_description_always_suffixed (oracle : String → Option String)
    (desc localAddr : String) :
    fakePingDescription oracle desc localAddr
      = desc ++ " (從: " ++ GetPublicIP oracle localAddr ++ " 連線)" := by
  unfold fakePingDescription
  rw [if_pos]
  simpa using getPublicIP_ne_empty oracle localAddr

/-- Witness for C4's amended theorem at the claim's configuration. -/
theorem fake_ping_description_always_suffixed_witness :
    fakePingDescription (fun _ => none) "hi" ""
      = "hi" ++ " (從: " ++ GetPublicIP (fun _ => none) "" ++ " 連線)" :=
  fake_ping_description_always_suffixed (fun _ => none) "hi" ""

/-! ## The Long codec (modelled from the spec) and the real-ping fallback
policy (`core/ping.go`) -/

/-- Big-endian value of a byte string. -/
def beNat (l : List Nat) : Nat := l.foldl (fun acc b => acc * 256 + b) 0

/-- Big-endian byte string of a value, `k` bytes wide. -/
def natToBE : Nat → Nat → List Nat
  | 0, _ => []
  | k + 1, v => natToBE k (v / 256) ++ [v % 256]

/-- Modelled from the spec: `Long.WriteTo` (missing from the sources) —
8 bytes big-endian of the 64-bit value. -/
def longPack (v : Nat) : List Nat := natToBE 8 (v % 2 ^ 64)

/-- Modelled from the spec: `Long.ReadFrom` (missing from the sources) —
read exactly 8 bytes big-endian from the payload buffer; fewer is an
error. -/
def longScan (payload : List Nat) : Except String Nat :=
  if payload.length < 8 then .error "scan long: unexpected end of input"
  else .ok (beNat (payload.take 8))

/-- The Ping-echo of the `handlePing` fallback paths: scan the `Long` from
the Ping payload and pack it back as the Pong payload. -/
def echoPong (payload : List Nat) : Except String (List Nat) :=
  match longScan payload with
  | .error e => .error e
  | .ok v => .ok (longPack v)

theorem beNat_append_singleton (l : List Nat) (b : Nat) :
    beNat (l ++ [b]) = beNat l * 256 + b := by
  unfold beNat
  rw [List.foldl_append]
  rfl

theorem beNat_lt (l : List Nat) (h : ∀ b ∈ l, b < 256) :
    beNat l < 256 ^ l.length := by
  induction l using List.reverseRecOn with
  | nil => simp [beNat]
  | append_singleton l b ih =>
    have hb : b < 256 := h b (by simp)
    have hl : ∀ x ∈ l, x < 256 := fun x hx => h x (by simp [hx])
    have h1 := ih hl
    rw [beNat_append_singleton, List.length_append, List.length_singleton]
    calc beNat l * 256 + b < (beNat l + 1) * 256 := by omega
    _ ≤ 256 ^ l.length * 256 := Nat.mul_le_mul_right _ h1
    _ = 256 ^ (l.length + 1) := (pow_succ 256 l.length).symm

theorem natToBE_beNat (l : List Nat) (h : ∀ b ∈ l, b < 256) :
    natToBE l.length (beNat l) = l := by
  induction l using List.reverseRecOn with
  | nil => rfl
  | append_singleton l b ih =>
    have hb : b < 256 := h b (by simp)
    have hl : ∀ x ∈ l, x < 256 := fun x hx => h x (by simp [hx])
    rw [List.length_append, List.length_singleton, beNat_append_singleton]
    simp only [natToBE]
    have hdiv : (beNat l * 256 + b) / 256 = beNat l := by omega
    have hmod : (beNat l * 256 + b) % 256 = b := by omega
    rw [hdiv, hmod, ih hl]

theorem echoPong_of_wellformed (payload : List Nat) (hlen : payload.length = 8)
    (hb : ∀ b ∈ payload, b < 256) : echoPong payload = .ok payload := by
  unfold echoPong longScan longPack
  rw [if_neg (by omega)]
  dsimp only
  rw [List.take_of_length_le (by omega)]
  have hlt : beNat payload < 2 ^ 64 := by
    have := beNat_lt payload hb
    rw [hlen] at this
    calc beNat payload < 256 ^ 8 := this
    _ = 2 ^ 64 := by norm_num
  rw [Nat.mod_eq_of_lt hlt]
  rw [show (8 : Nat) = payload.length from hlen.symm, natToBE_beNat payload hb]

/-- The frames real-mode `handlePing` can write to the client. -/
inductive ClientFrame where
  | synthStatus
  | response (payload : List Nat)
  | pong (payload : List Nat)
deriving DecidableEq

/-- The environment of one real-mode `handlePing` run: whether the upstream
dial and each upstream write succeed, what `ReadPacket` returns for the
upstream Response and Pong, and what it returns for the client's Ping.
Client-directed writes are modelled as delivered (the claim is about the
frames the client receives). -/
structure RealPingEnv where
  dialOk : Bool
  handshakeOk : Bool
  requestOk : Bool
  responseResult : Except String Packet
  clientPing : Except String Packet
  pingForwardOk : Bool
  pongResult : Except String Packet

/-- The `sendResponse`-then-`handlePingFallback` sequence of the real-mode
fallback paths (`core/ping.go` lines 69-73 and analogues, and
`handlePingFallback` lines 221-243): synthesize a status, then read the
client's Ping, check its id, and echo its `Long` payload as the Pong. -/
def pingFallbackFrames (clientPing : Except String Packet) : List ClientFrame :=
  match clientPing with
  | .error _ => [.synthStatus]
  | .ok pkt =>
    if pkt.ID ≠ 1 then [.synthStatus]
    else
      match echoPong pkt.Payload with
      | .error _ => [.synthStatus]
      | .ok e => [.synthStatus, .pong e]

/-- The real-mode branch of `handlePing` (`core/ping.go` lines 59-213) as
the sequence of frames the client receives: dial, handshake write and
request write failures, a Response read failure and a Response with an
unexpected id all divert to the synthesized-status fallback; after the
Response has been forwarded, a Ping-forward write failure, a Pong read
failure and a Pong with an unexpected id all fall back to echoing the
already-received Ping. -/
def handlePingReal (env : RealPingEnv) : List ClientFrame :=
  if !env.dialOk then pingFallbackFrames env.clientPing
  else if !env.handshakeOk then pingFallbackFrames env.clientPing
  else if !env.requestOk then pingFallbackFrames env.clientPing
  else
    match env.responseResult with
    | .error _ => pingFallbackFrames env.clientPing
    | .ok resp =>
      if resp.ID ≠ 0 then pingFallbackFrames env.clientPing
      else
        match env.clientPing with
        | .error _ => [.response resp.Payload]
        | .ok ping =>
          if ping.ID ≠ 1 then [.response resp.Payload]
          else if !env.pingForwardOk then
            match echoPong ping.Payload with
            | .error _ => [.response resp.Payload]
            | .ok e => [.response resp.Payload, .pong e]
          else
            match env.pongResult with
            | .error _ =>
              match echoPong ping.Payload with
              | .error _ => [.response resp.Payload]
              | .ok e => [.response resp.Payload, .pong e]
            | .ok pong =>
              if pong.ID ≠ 1 then
                match echoPong ping.Payload with
                | .error _ => [.response resp.Payload]
                | .ok e => [.response resp.Payload, .pong e]
              else [.response resp.Payload, .pong pong.Payload]

/-- C7: in real ping mode, with a well-formed client Ping (id 1, 8-byte
payload), every failure before the Ping is forwarded upstream — dial,
handshake write, request write, Response read or Response id validation —
makes the client receive the locally synthesized status followed by a Pong
echoing its Ping payload; and once the Response has been forwarded, a
failure forwarding the Ping or reading (or validating) the Pong makes the
client receive a Pong echoing the already-received Ping payload. -/
theorem realPing_fallback_policy (env : RealPingEnv) (ping : Packet)
    (hping : env.clientPing = .ok ping) (hid : ping.ID = 1)
    (hlen : ping.Payload.length = 8) (hbytes : ∀ b ∈ ping.Payload, b < 256) :
    ((env.dialOk = false ∨ env.handshakeOk = false ∨ env.requestOk = false ∨
      isErr env.responseResult = true ∨
      (∃ r, env.responseResult = .ok r ∧ r.ID ≠ 0)) →
      handlePingReal env = [.synthStatus, .pong ping.Payload]) ∧
    (∀ r, env.responseResult = .ok r → r.ID = 0 →
      env.dialOk = true → env.handshakeOk = true → env.requestOk = true →
      (env.pingForwardOk = false ∨ isErr env.pongResult = true ∨
        (∃ q, env.pongResult = .ok q ∧ q.ID ≠ 1)) →
      handlePingReal env = [.response r.Payload, .pong ping.Payload]) := by
  have hecho : echoPong ping.Payload = .ok ping.Payload :=
    echoPong_of_wellformed ping.Payload hlen hbytes
  obtain ⟨d, hs, rq, rr, cp, pf, pr⟩ := env
  subst hping
  have hfb : pingFallbackFrames (.ok ping) = [.synthStatus, .pong ping.Payload] := by
    unfold pingFallbackFrames
    dsimp only
    rw [if_neg (by simp [hid]), hecho]
  constructor
  · intro hfail
    unfold handlePingReal
    cases d with
    | false => simpa using hfb
    | true =>
      cases hs with
      | false => simpa using hfb
      | true =>
        cases rq with
        | false => simpa using hfb
        | true =>
          rcases rr with e | r
          · simpa using hfb
          · have hr : r.ID ≠ 0 := by
              rcases hfail with h | h | h | h | ⟨r', hr', hne⟩
              · exact absurd h (by simp)
              · exact absurd h (by simp)
              · exact absurd h (by simp)
              · exact absurd h (by simp [isErr])
              · obtain rfl : r = r' := by simpa using hr'
                exact hne
            simpa [hr] using hfb
  · intro r hrr hr0 hd hhs hrq hlate
    subst hd
    subst hhs
    subst hrq
    subst hrr
    unfold handlePingReal
    simp only [Bool.not_true, Bool.false_eq_true, if_false]
    rw [if_neg (by simp [hr0])]
    rw [if_neg (by simp [hid])]
    cases pf with
    | false =>
      simp only [Bool.not_false, if_true, hecho]
    | true =>
      simp only [Bool.not_true, Bool.false_eq_true, if_false]
      rcases pr with e | q
      · simp [hecho]
      · have hq : q.ID ≠ 1 := by
          rcases hlate with h | h | ⟨q', hq', hne⟩
          · exact absurd h (by simp)
          · exact absurd h (by simp [isErr])
          · obtain rfl : q = q' := by simpa using hq'
            exact hne
        simp [hq, hecho]

/-- Witness for C7: a failed upstream dial with a well-formed client Ping
yields the synthesized status and the echoed Pong. -/
theorem realPing_fallback_policy_witness :
    handlePingReal ⟨false, true, true, .ok ⟨0, []⟩, .ok ⟨1, [1, 2, 3, 4, 5, 6, 7, 8]⟩,
        true, .ok ⟨1, []⟩⟩
      = [.synthStatus, .pong [1, 2, 3, 4, 5, 6, 7, 8]] :=
  (realPing_fallback_policy ⟨false, true, true, .ok ⟨0, []⟩,
      .ok ⟨1, [1, 2, 3, 4, 5, 6, 7, 8]⟩, true, .ok ⟨1, []⟩⟩
    ⟨1, [1, 2, 3, 4, 5, 6, 7, 8]⟩ rfl rfl rfl (by decide)).1 (Or.inl rfl)

/-! ## Balancer proxy selection (`ProxyBalancer.selectBestProxy`) -/

/-- The per-candidate inputs `selectBestProxy` reads: the config's
`MaxPlayer`, the live `GetConnectionCountForIP` count for the proxy's
public IP, and the health flag from its statistics. -/
structure ProxyCandidate where
  maxPlayer : Int
  connectionCount : Nat
  healthy : Bool
deriving DecidableEq

/-- Default candidate for out-of-range indexing. -/
def dummyCandidate : ProxyCandidate := ⟨0, 0, true⟩

/-- The scoring capacity: `MaxPlayer`, falling back to
`MaxConnectionsPerIP` when non-positive. -/
def candMax (p : ProxyCandidate) : Int :=
  if p.maxPlayer ≤ 0 then (MaxConnectionsPerIP : Int) else p.maxPlayer

/-- `totalMaxConnections`: the summed capacities of all candidates. -/
def totalMax (ps : List ProxyCandidate) : Int := (ps.map candMax).sum

/-- One candidate's weight (`selectBestProxy`, second pass), with Go's
float64 arithmetic modelled as exact rational arithmetic:
`0.4 · capacityWeight + 0.6 · (100 − loadPercent)`, times `0.1` when
unhealthy, times `0.2` when at or above capacity. -/
def candWeight (tm : Int) (p : ProxyCandidate) : ℚ :=
  let loadPercent : ℚ :=
    if 0 < candMax p then (p.connectionCount : ℚ) / ((candMax p : Int) : ℚ) * 100 else 0
  let capacityWeight : ℚ := ((candMax p : Int) : ℚ) / ((tm : Int) : ℚ) * 100
  let loadAdjustment : ℚ := 100 - loadPercent
  let w : ℚ := capacityWeight * (4 / 10) + loadAdjustment * (6 / 10)
  let w : ℚ := if p.healthy then w else w * (1 / 10)
  if candMax p ≤ (p.connectionCount : Int) then w * (2 / 10) else w

/-- The weights of all candidates, in order. -/
def weightList (ps : List ProxyCandidate) : List ℚ := ps.map (candWeight (totalMax ps))

/-- The maximal weight (`scores[0].weight` after the descending sort). -/
def bestWeight (ps : List ProxyCandidate) : ℚ :=
  match weightList ps with
  | [] => 0
  | w :: ws => ws.foldl max w

/-- The top-candidate indices: weight within 10% of the best
(`weight ≥ 0.9 · bestWeight`). -/
def topIdx (ps : List ProxyCandidate) : List Nat :=
  (List.range ps.length).filter
    (fun i => decide ((9 / 10 : ℚ) * bestWeight ps ≤ (weightList ps).getD i 0))

/-- Whether `selectBestProxy` can return index `i` on candidates `ps`: with
more than one top candidate, a (time-seeded) random one of them is chosen;
otherwise the unstable descending sort places some maximal-weight candidate
first and that one is chosen. -/
def selectable (ps : List ProxyCandidate) (i : Nat) : Bool :=
  !ps.isEmpty &&
    (if 1 < (topIdx ps).length then decide (i ∈ topIdx ps)
     else decide (i < ps.length) && ((weightList ps).getD i 0 == bestWeight ps))

theorem weightList_pair_eval :
    weightList [⟨1, 1, true⟩, ⟨99, 0, false⟩] = [2 / 25, 249 / 25] := by
  have htm : totalMax [⟨1, 1, true⟩, ⟨99, 0, false⟩] = 100 := rfl
  have hw0 : candWeight 100 ⟨1, 1, true⟩ = 2 / 25 := by
    unfold candWeight candMax MaxConnectionsPerIP; norm_num
  have hw1 : candWeight 100 ⟨99, 0, false⟩ = 249 / 25 := by
    unfold candWeight candMax MaxConnectionsPerIP; norm_num
  unfold weightList
  rw [htm]
  simp only [List.map_cons, List.map_nil]
  rw [hw0, hw1]

theorem selectable_pair_eval : selectable [⟨1, 1, true⟩, ⟨99, 0, false⟩] 1 = true := by
  have hbw : bestWeight [⟨1, 1, true⟩, ⟨99, 0, false⟩] = 249 / 25 := by
    unfold bestWeight
    rw [weightList_pair_eval]
    simp only [List.foldl_cons, List.foldl_nil]
    rw [max_eq_right (by norm_num)]
  have htop : topIdx [⟨1, 1, true⟩, ⟨99, 0, false⟩] = [1] := by
    unfold topIdx
    simp only [weightList_pair_eval, hbw, List.length_cons, List.length_nil]
    norm_num [List.filter, List.getD]
  unfold selectable
  rw [htop]
  simp only [List.length_cons, List.length_nil]
  rw [if_neg (by norm_num)]
  simp [weightList_pair_eval, hbw, List.getD]

/-- C8 counterexample: candidates `[⟨max 1, 1 conn, healthy⟩,
⟨max 99, 0 conn, unhealthy⟩]`.  The healthy candidate scores
`0.08` (at capacity), the unhealthy one `9.96`; the `≥ 0.9 · best` band
contains only the unhealthy candidate, so it is selected even though a
healthy candidate with nonzero weight exists. -/
theorem balancer_unhealthy_selected_counterexample :
    selectable [⟨1, 1, true⟩, ⟨99, 0, false⟩] 1 = true ∧
    (([⟨1, 1, true⟩, ⟨99, 0, false⟩] : List ProxyCandidate).getD 1 dummyCandidate).healthy
      = false ∧
    (([⟨1, 1, true⟩, ⟨99, 0, false⟩] : List ProxyCandidate).getD 0 dummyCandidate).healthy
      = true ∧
    (weightList [⟨1, 1, true⟩, ⟨99, 0, false⟩]).getD 0 0 ≠ 0 := by
  refine ⟨selectable_pair_eval, rfl, rfl, ?_⟩
  rw [weightList_pair_eval]
  simp [List.getD]

theorem le_foldl_max_init (l : List ℚ) (w : ℚ) : w ≤ l.foldl max w := by
  induction l generalizing w with
  | nil => simp
  | cons a tl ih => exact le_trans (le_max_left w a) (ih (max w a))

theorem le_foldl_max_mem (l : List ℚ) (w x : ℚ) (hx : x ∈ l) : x ≤ l.foldl max w := by
  induction l generalizing w with
  | nil => simp at hx
  | cons a tl ih =>
    rcases List.mem_cons.mp hx with rfl | h
    · exact le_trans (le_max_right w x) (le_foldl_max_init tl (max w x))
    · exact ih (max w a) h

theorem mem_weight_le_best (ps : List ProxyCandidate) (x : ℚ)
    (hx : x ∈ weightList ps) : x ≤ bestWeight ps := by
  unfold bestWeight
  rcases hwl : weightList ps with _ | ⟨w, ws⟩
  · rw [hwl] at hx
    simp at hx
  · rw [hwl] at hx
    rcases List.mem_cons.mp hx with rfl | h
    · exact le_foldl_max_init ws x
    · exact le_foldl_max_mem ws w x h

theorem one_le_candMax (p : ProxyCandidate) : 1 ≤ candMax p := by
  unfold candMax MaxConnectionsPerIP
  split <;> omega

theorem candMax_le_totalMax (ps : List ProxyCandidate) (p : ProxyCandidate)
    (hp : p ∈ ps) : candMax p ≤ totalMax ps := by
  have hall : ∀ x ∈ ps.map candMax, (0 : Int) ≤ x := by
    intro x hx
    obtain ⟨q, hq, rfl⟩ := List.mem_map.mp hx
    have := one_le_candMax q
    omega
  exact List.single_le_sum hall _ (List.mem_map_of_mem _ hp)

/-- An unhealthy candidate's weight never exceeds 10: its raw score is at
most `0.4·100 + 0.6·100 = 100` and the `×0.1` health penalty caps it at
10 (the further `×0.2` capacity penalty only lowers it). -/
theorem candWeight_le_ten_of_unhealthy (ps : List ProxyCandidate) (p : ProxyCandidate)
    (hp : p ∈ ps) (hh : p.healthy = false) :
    candWeight (totalMax ps) p ≤ 10 := by
  have hm1 : (1 : Int) ≤ candMax p := one_le_candMax p
  have htm : candMax p ≤ totalMax ps := candMax_le_totalMax ps p hp
  have htm1 : (1 : Int) ≤ totalMax ps := le_trans hm1 htm
  have hmQ : (1 : ℚ) ≤ ((candMax p : Int) : ℚ) := by exact_mod_cast hm1
  have htmQ : ((candMax p : Int) : ℚ) ≤ ((totalMax ps : Int) : ℚ) := by exact_mod_cast htm
  have htmQ0 : (0 : ℚ) < ((totalMax ps : Int) : ℚ) := by
    have : (1 : ℚ) ≤ ((totalMax ps : Int) : ℚ) := by exact_mod_cast htm1
    linarith
  unfold candWeight
  rw [hh]
  simp only [Bool.false_eq_true, if_false]
  rw [if_pos (by omega : (0 : Int) < candMax p)]
  have hcap : ((candMax p : Int) : ℚ) / ((totalMax ps : Int) : ℚ) * 100 ≤ 100 := by
    have hdivle : ((candMax p : Int) : ℚ) / ((totalMax ps : Int) : ℚ) ≤ 1 :=
      (div_le_one htmQ0).mpr htmQ
    calc ((candMax p : Int) : ℚ) / ((totalMax ps : Int) : ℚ) * 100 ≤ 1 * 100 :=
      mul_le_mul_of_nonneg_right hdivle (by norm_num)
    _ = 100 := one_mul 100
  have hload : (0 : ℚ) ≤ (p.connectionCount : ℚ) / ((candMax p : Int) : ℚ) * 100 := by
    have hmQ0 : (0 : ℚ) < ((candMax p : Int) : ℚ) := by linarith
    exact mul_nonneg (div_nonneg (by positivity) (le_of_lt hmQ0)) (by norm_num)
  split
  · linarith
  · linarith

/-- C8 (amended): an unhealthy proxy can win selection over healthy
candidates with nonzero weight (see the counterexample); what holds is:
whenever some healthy candidate's weight exceeds `100/9` — so that `0.9`
of it exceeds 10, the ceiling of any unhealthy candidate's penalized
weight — the selected proxy is always healthy. -/
theorem balancer_health_selection (ps : List ProxyCandidate) (j : Nat)
    (hj : j < ps.length) (_hjh : (ps.getD j dummyCandidate).healthy = true)
    (hjw : 100 / 9 < (weightList ps).getD j 0)
    (i : Nat) (hsel : selectable ps i = true) :
    (ps.getD i dummyCandidate).healthy = true := by
  have hwlen : (weightList ps).length = ps.length := List.length_map ps _
  have hjwmem : (weightList ps).getD j 0 ∈ weightList ps := by
    rw [List.getD_eq_getElem (weightList ps) 0 (by omega)]
    exact List.getElem_mem _
  have hbest : (weightList ps).getD j 0 ≤ bestWeight ps := mem_weight_le_best ps _ hjwmem
  by_contra hunh
  have hunh' : (ps.getD i dummyCandidate).healthy = false := by
    cases h : (ps.getD i dummyCandidate).healthy
    · rfl
    · exact absurd h hunh
  unfold selectable at hsel
  rw [Bool.and_eq_true] at hsel
  obtain ⟨-, hsel⟩ := hsel
  -- In both selection branches, i is in range and its weight is ≥ 0.9 · best.
  have hkey : i < ps.length ∧ (9 / 10 : ℚ) * bestWeight ps ≤ (weightList ps).getD i 0 := by
    split at hsel
    · rw [decide_eq_true_eq] at hsel
      unfold topIdx at hsel
      rw [List.mem_filter] at hsel
      obtain ⟨hmem, hpred⟩ := hsel
      rw [List.mem_range] at hmem
      rw [decide_eq_true_eq] at hpred
      exact ⟨hmem, hpred⟩
    · rw [Bool.and_eq_true, decide_eq_true_eq, beq_iff_eq] at hsel
      obtain ⟨hlt, heq⟩ := hsel
      refine ⟨hlt, ?_⟩
      rw [heq]
      nlinarith [le_trans (le_of_lt hjw) hbest]
  obtain ⟨hilt, hige⟩ := hkey
  -- The weight at i is the weight of the i-th candidate, an unhealthy member.
  have hwi : (weightList ps).getD i 0 = candWeight (totalMax ps) (ps.getD i dummyCandidate) := by
    rw [List.getD_eq_getElem (weightList ps) 0 (by omega),
      List.getD_eq_getElem ps dummyCandidate hilt]
    simp [weightList]
  have hpm : ps.getD i dummyCandidate ∈ ps := by
    rw [List.getD_eq_getElem ps dummyCandidate hilt]
    exact List.getElem_mem _
  have hten : candWeight (totalMax ps) (ps.getD i dummyCandidate) ≤ 10 :=
    candWeight_le_ten_of_unhealthy ps _ hpm hunh'
  have hbj : (100 / 9 : ℚ) < bestWeight ps := lt_of_lt_of_le hjw hbest
  rw [hwi] at hige
  nlinarith

theorem weightList_single_eval : weightList [⟨4, 0, true⟩] = [100] := by
  have htm : totalMax [⟨4, 0, true⟩] = 4 := rfl
  have hw0 : candWeight 4 ⟨4, 0, true⟩ = 100 := by
    unfold candWeight candMax MaxConnectionsPerIP; norm_num
  unfold weightList
  rw [htm]
  simp only [List.map_cons, List.map_nil]
  rw [hw0]

theorem selectable_single_eval : selectable [⟨4, 0, true⟩] 0 = true := by
  have hbw : bestWeight [⟨4, 0, true⟩] = 100 := by
    unfold bestWeight
    rw [weightList_single_eval]
    simp only [List.foldl_cons, List.foldl_nil]
  have htop : topIdx [⟨4, 0, true⟩] = [0] := by
    unfold topIdx
    simp only [weightList_single_eval, hbw, List.length_cons, List.length_nil]
    norm_num [List.filter, List.getD]
  unfold selectable
  rw [htop]
  simp only [List.length_cons, List.length_nil]
  rw [if_neg (by norm_num)]
  simp [weightList_single_eval, hbw, List.getD]

/-- Witness for C8's amended theorem: a single healthy proxy of capacity 4
with no connections scores 100 and is selected. -/
theorem balancer_health_selection_witness :
    ((([⟨4, 0, true⟩] : List ProxyCandidate).getD 0 dummyCandidate).healthy = true) :=
  balancer_health_selection [⟨4, 0, true⟩] 0 (by norm_num) rfl
    (by rw [weightList_single_eval]; simp [List.getD]; norm_num)
    0 selectable_single_eval

end MCProxy
